import Mathlib

/-!
Verification of the SPF server-side protocol code (spfjs repository).

The development shallowly embeds the Python sources:
  * `src/src/server/python/spf.py` — protocol constants and `hashcode`;
  * `src/src/server/demo/app.py`  — the demo `Servlet` (response builder,
    multipart streaming encoder, content negotiation, redirect encoder,
    chunk subdivision, request-parameter handling);
  * `src/src/demo/app.py`         — the older demo `Servlet` (`IsSPFRequest`).

Python strings are modelled as Lean `String`/`List Char` (code points, so
`ord` is `Char.toNat`); Python machine-free integers as `Nat`/`Int`, with the
explicit `% 2 ^ 32` the source itself performs; raising code as `Except`.

The external `json` library (`json.dumps` with separators `(',"," ":")` and
`json.loads`) is modelled by an executable encoder `encV` and a fueled
recursive-descent decoder `parseVal`/`json_loads` over a `Json` value type.
Modelling notes for the json library (external collaborator, not repository
code): numbers are restricted to integers; the pretty-printing debug mode of
`encode_json` (an external configuration flag) is fixed to the compact form,
which the spec declares semantically equivalent; the encoder escapes the
quote, the backslash and the common control characters and leaves other
characters literal, and the decoder accepts exactly what the encoder
produces (no hex escapes, leading zeros in numbers are tolerated).  None of
the claims depend on these corners.
-/

/-- JSON values, the data manipulated by the response builder and the
multipart streaming encoder.  Objects keep their members in insertion
order, as Python dicts do. -/
inductive Json where
  | null : Json
  | bool (b : Bool) : Json
  | num (n : Int) : Json
  | str (s : String) : Json
  | arr (elems : List Json) : Json
  | obj (members : List (String × Json)) : Json

/-- The opening brace character, written by code point. -/
def lbrace : Char := Char.ofNat 123

/-- The closing brace character, written by code point. -/
def rbrace : Char := Char.ofNat 125

/-- Python truthiness of a JSON value (`if attr:` etc.): `None`, `False`,
`0`, the empty string, the empty list and the empty dict are falsy. -/
def jsonTruthy : Json → Bool
  | .null => false
  | .bool b => b
  | .num n => n != 0
  | .str s => s != ""
  | .arr xs => !xs.isEmpty
  | .obj ms => !ms.isEmpty

/-- Python truthiness of an optional string (`bool(req.spf)` where the
parameter defaults to `None`). -/
def pyTruthy : Option String → Bool
  | none => false
  | some s => s != ""

/-- Big-endian decimal digit characters of a natural number, as Python's
`repr` renders it inside `json.dumps`. -/
def natDigits (value : Nat) : List Char :=
  if value = 0 then ['0'] else (Nat.digits 10 value).reverse.map Nat.digitChar

/-- Numeric value of a decimal digit character. -/
def digitVal (ch : Char) : Nat := ch.toNat - '0'.toNat

/-- Value of a big-endian list of decimal digit characters. -/
def digitsToNat (ds : List Char) : Nat :=
  ds.foldl (fun acc c => 10 * acc + digitVal c) 0

/-- Decimal rendering of an integer (`repr` of a Python int). -/
def encNum (n : Int) : List Char :=
  if n < 0 then '-' :: natDigits n.natAbs else natDigits n.natAbs

/-- JSON string escaping of one character, as the modelled `json.dumps`
performs it. -/
def escapeChar (c : Char) : List Char :=
  if c = '"' then ['\\', '"']
  else if c = '\\' then ['\\', '\\']
  else if c = '\n' then ['\\', 'n']
  else if c = '\r' then ['\\', 'r']
  else if c = '\t' then ['\\', 't']
  else if c = Char.ofNat 8 then ['\\', 'b']
  else if c = Char.ofNat 12 then ['\\', 'f']
  else [c]

/-- JSON string escaping of a character list. -/
def escape : List Char → List Char
  | [] => []
  | c :: cs => escapeChar c ++ escape cs

mutual

/-- Compact JSON encoding, the model of `json.dumps(v, separators=(",", ":"))`
used by `Servlet.encode_json` outside debug mode. -/
def encV : Json → List Char
  | .null => 'n' :: ['u', 'l', 'l']
  | .bool true => 't' :: ['r', 'u', 'e']
  | .bool false => 'f' :: ['a', 'l', 's', 'e']
  | .num n => encNum n
  | .str s => '"' :: (escape s.data ++ ['"'])
  | .arr [] => ['[', ']']
  | .arr (x :: xs) => '[' :: (encItems x xs ++ [']'])
  | .obj [] => [lbrace, rbrace]
  | .obj (m :: ms) => lbrace :: (encMembers m ms ++ [rbrace])
termination_by v => sizeOf v

/-- Comma-separated encoding of the elements of a nonempty JSON array. -/
def encItems : Json → List Json → List Char
  | x, [] => encV x
  | x, y :: ys => encV x ++ ',' :: encItems y ys
termination_by x xs => sizeOf x + sizeOf xs

/-- Comma-separated encoding of the members of a nonempty JSON object. -/
def encMembers : String × Json → List (String × Json) → List Char
  | (k, v), [] => '"' :: (escape k.data ++ '"' :: ':' :: encV v)
  | (k, v), m :: ms =>
      ('"' :: (escape k.data ++ '"' :: ':' :: encV v)) ++ ',' :: encMembers m ms
termination_by m ms => sizeOf m + sizeOf ms

end

/-!  The `hashcode` function of `src/src/server/python/spf.py`. -/

/-- Model of `spf.hashcode`: fold `result = (31 * result + ord(char)) % 2**32`
over the characters, with `None` treated as the empty string. -/
def hashcode (string : Option (List Char)) : Nat :=
  let s := string.getD []
  s.foldl (fun result c => (31 * result + c.toNat) % 2 ^ 32) 0

/-- The indexed power sum `s[0]*31^(n-1) + s[1]*31^(n-2) + ... + s[n-1]`
named by the spec and the `hashcode` docstring. -/
def powerSum (s : List Char) : Nat :=
  Finset.sum (Finset.range s.length)
    (fun i => (s.getD i (Char.ofNat 0)).toNat * 31 ^ (s.length - 1 - i))

/-! ## JSON decoding (model of `json.loads`) -/

/-- JSON whitespace predicate (also Python's `str.strip` default set, up to
the corners no claim exercises). -/
def isWs (c : Char) : Bool := c = ' ' || c = '\t' || c = '\n' || c = '\r'

/-- Skip leading JSON whitespace. -/
def skipWs : List Char → List Char
  | [] => []
  | c :: cs => if isWs c then skipWs cs else c :: cs

/-- Decode the character following a backslash in a JSON string. -/
def unescapeChar (e : Char) : Option Char :=
  if e = '"' then some '"'
  else if e = '\\' then some '\\'
  else if e = '/' then some '/'
  else if e = 'n' then some '\n'
  else if e = 'r' then some '\r'
  else if e = 't' then some '\t'
  else if e = 'b' then some (Char.ofNat 8)
  else if e = 'f' then some (Char.ofNat 12)
  else none

/-- Parse the body of a JSON string after the opening quote, returning the
decoded characters and the input following the closing quote. -/
def parseStrChars : List Char → Option (List Char × List Char)
  | [] => none
  | '\\' :: [] => none
  | '\\' :: e :: cs2 =>
      match unescapeChar e with
      | some d => (parseStrChars cs2).map fun p => (d :: p.1, p.2)
      | none => none
  | c :: cs =>
      if c = '"' then some ([], cs)
      else (parseStrChars cs).map fun p => (c :: p.1, p.2)

/-- Split off the longest prefix of decimal digit characters. -/
def takeDigits : List Char → List Char × List Char
  | [] => ([], [])
  | c :: cs =>
    if c.isDigit then
      let p := takeDigits cs
      (c :: p.1, p.2)
    else ([], c :: cs)

/-- The input does not continue with a decimal digit (so a greedy number
decode stops exactly here). -/
def headNotDigit : List Char → Bool
  | [] => true
  | c :: _ => !c.isDigit

/-- Characters that can start the compact encoding of a JSON value. -/
def valStart (c : Char) : Bool :=
  c = 'n' || c = 't' || c = 'f' || c = '"' || c = '-' || c.isDigit || c = '[' || c = lbrace

mutual

/-- Fueled recursive-descent JSON value decoder, the model of `json.loads`.
Fuel bounds the call depth and is consumed at each nested call. -/
def parseVal : Nat → List Char → Option (Json × List Char)
  | 0, _ => none
  | fuel + 1, input =>
    match skipWs input with
    | [] => none
    | c :: cs =>
      if c = 'n' then
        match cs with
        | 'u' :: 'l' :: 'l' :: r => some (.null, r)
        | _ => none
      else if c = 't' then
        match cs with
        | 'r' :: 'u' :: 'e' :: r => some (.bool true, r)
        | _ => none
      else if c = 'f' then
        match cs with
        | 'a' :: 'l' :: 's' :: 'e' :: r => some (.bool false, r)
        | _ => none
      else if c = '"' then
        (parseStrChars cs).map fun p => (.str (String.mk p.1), p.2)
      else if c = '-' then
        match takeDigits cs with
        | ([], _) => none
        | (ds, r) => some (.num (-(digitsToNat ds : Int)), r)
      else if c.isDigit then
        some (.num ((digitsToNat (takeDigits (c :: cs)).1 : Int)), (takeDigits (c :: cs)).2)
      else if c = '[' then
        match skipWs cs with
        | [] => none
        | d :: r =>
          if d = ']' then some (.arr [], r)
          else (parseItems fuel (d :: r)).map fun p => (.arr p.1, p.2)
      else if c = lbrace then
        match skipWs cs with
        | [] => none
        | d :: r =>
          if d = rbrace then some (.obj [], r)
          else (parseMembers fuel (d :: r)).map fun p => (.obj p.1, p.2)
      else none

/-- Decode the comma-separated elements of a JSON array up to the closing
bracket. -/
def parseItems : Nat → List Char → Option (List Json × List Char)
  | 0, _ => none
  | fuel + 1, input =>
    match parseVal fuel input with
    | none => none
    | some (v, r) =>
      match skipWs r with
      | [] => none
      | d :: r2 =>
        if d = ',' then (parseItems fuel r2).map fun p => (v :: p.1, p.2)
        else if d = ']' then some ([v], r2)
        else none

/-- Decode the comma-separated members of a JSON object up to the closing
brace. -/
def parseMembers : Nat → List Char → Option (List (String × Json) × List Char)
  | 0, _ => none
  | fuel + 1, input =>
    match skipWs input with
    | [] => none
    | c :: cs =>
      if c = '"' then
        match parseStrChars cs with
        | none => none
        | some (k, r) =>
          match skipWs r with
          | [] => none
          | d :: r2 =>
            if d = ':' then
              match parseVal fuel r2 with
              | none => none
              | some (v, r3) =>
                match skipWs r3 with
                | [] => none
                | d2 :: r4 =>
                  if d2 = ',' then
                    (parseMembers fuel r4).map fun p => ((String.mk k, v) :: p.1, p.2)
                  else if d2 = rbrace then some ([(String.mk k, v)], r4)
                  else none
            else none
      else none

end

/-- Model of `json.loads`: decode one JSON value and require at most
trailing whitespace after it. -/
def json_loads (s : String) : Option Json :=
  match parseVal (s.data.length + 1) s.data with
  | some (v, rest) => if skipWs rest = [] then some v else none
  | none => none

/-! ## Protocol constants (`spf.MultipartToken` of src/src/server/python/spf.py) -/

/-- `spf.MultipartToken.BEGIN`. -/
def multipartBegin : String := "[\r\n"

/-- `spf.MultipartToken.DELIMITER`. -/
def multipartDelimiter : String := ",\r\n"

/-- `spf.MultipartToken.END`. -/
def multipartEnd : String := "]\r\n"

/-! ## The demo `Servlet` of src/src/server/demo/app.py -/

/-- Model of the opaque rendered-content collaborator: the attributes
`create_spf_response` reads off it with `getattr` (each modelled after its
`str` conversion, `none` when absent), the full string conversion
`str(content)`, and the generic attribute lookup used for fragment ids. -/
structure Content where
  stylesheet : Option String
  javascript : Option String
  title : Option String
  name : Option String
  attributes : Option String
  contentStr : String
  attrs : String → Json

/-- Lookup `d[k]` / `k in d` on a Python dict kept as an insertion-ordered
association list. -/
def dictGet (k : String) : List (String × Json) → Option Json
  | [] => none
  | (k2, v) :: rest => if k2 = k then some v else dictGet k rest

/-- Assignment `d[k] = v` on a Python dict kept as an insertion-ordered
association list: overwrite in place, else append. -/
def dictInsert (k : String) (v : Json) : List (String × Json) → List (String × Json)
  | [] => [(k, v)]
  | (k2, v2) :: rest => if k2 = k then (k, v) :: rest else (k2, v2) :: dictInsert k v rest

/-- Removal `d.pop(k)` of the entry with key `k` from a Python dict kept as
an association list with unique keys. -/
def eraseKey (k : String) : List (String × Json) → List (String × Json)
  | [] => []
  | (k2, v2) :: rest => if k2 = k then rest else (k2, v2) :: eraseKey k rest

/-- The `body` dict built by the `fragments` loop of `create_spf_response`:
`body[frag_id] = getattr(content, fragments[frag_id])` in iteration order. -/
def fragBody (c : Content) (l : List (String × String)) : List (String × Json) :=
  l.foldl (fun body p => dictInsert p.1 (c.attrs p.2) body) []

/-- Python truthiness of the optional `fragments` dict (`if fragments:`). -/
def fragsTruthy : Option (List (String × String)) → Bool
  | none => false
  | some l => !l.isEmpty

/-- The response dict `create_spf_response` builds once the attributes
string has parsed to `attr`: the fields in insertion order, each skipped
when its source is empty/falsy, with `body` either the fragment map, the
single `content` entry, or absent. -/
def respSegs (c : Content) (fragments : Option (List (String × String))) (attr : Json) :
    List (String × Json) :=
  (if c.stylesheet.getD "" = "" then [] else [("head", Json.str (c.stylesheet.getD ""))]) ++
  (if c.javascript.getD "" = "" then [] else [("foot", Json.str (c.javascript.getD ""))]) ++
  (if c.title.getD "" = "" then [] else [("title", Json.str (c.title.getD ""))]) ++
  (if c.name.getD "" = "" then [] else [("name", Json.str (c.name.getD ""))]) ++
  (if jsonTruthy attr then [("attr", attr)] else []) ++
  (if fragsTruthy fragments then
     [("body", Json.obj (fragBody c (fragments.getD [])))]
   else if c.contentStr = "" then []
   else [("body", Json.obj [("content", Json.str c.contentStr)])])

/-- Model of `Servlet.create_spf_response`.  A `json.loads` failure on the
attributes string propagates as an exception and no partial dict is
returned. -/
def create_spf_response (c : Content) (fragments : Option (List (String × String))) :
    Except String (List (String × Json)) :=
  match json_loads (c.attributes.getD "\x7b\x7d") with
  | none => Except.error "ValueError: attributes are not valid JSON"
  | some attr => Except.ok (respSegs c fragments attr)

/-- Model of `Servlet.encode_json` outside debug mode:
`json.dumps(response, separators=(",", ":"))`. -/
def encode_json (response : List (String × Json)) : String :=
  String.mk (encV (Json.obj response))

/-- The early/late split `chunked_render_spf` performs on the full response:
`head` and `title` are popped into the early part; `name` is copied into it
and kept in the late part. -/
def split_early (resp : List (String × Json)) :
    List (String × Json) × List (String × Json) :=
  let p1 : List (String × Json) × List (String × Json) :=
    match dictGet "head" resp with
    | some v => ([("head", v)], eraseKey "head" resp)
    | none => ([], resp)
  let p2 : List (String × Json) × List (String × Json) :=
    match dictGet "title" p1.2 with
    | some v => (p1.1 ++ [("title", v)], eraseKey "title" p1.2)
    | none => p1
  match dictGet "name" p2.2 with
  | some v => (p2.1 ++ [("name", v)], p2.2)
  | none => p2

/-- Model of `Servlet.chunked_render_spf`: the list of chunks the generator
yields.  Setting headers and the simulated-work `time.sleep` are I/O effects
outside the value model; a raising `create_spf_response` propagates before
any chunk is yielded. -/
def chunked_render_spf (c : Content) (fragments : Option (List (String × String)))
    (truncate : Bool) : Except String (List String) :=
  match create_spf_response c fragments with
  | Except.error e => Except.error e
  | Except.ok resp =>
    let el := split_early resp
    Except.ok ([multipartBegin, encode_json el.1, multipartDelimiter] ++
      (if truncate then [] else [encode_json el.2, multipartEnd]))

/-- The inbound request state the content negotiators read: the CGI
environment value for the `X-SPF-Request` header and the `spf` query/form
parameter (each `none` when absent). -/
structure Request where
  spfHeader : Option String
  spfParam : Option String

/-- Model of `Servlet.is_spf_request` (src/src/server/demo/app.py):
`bool(req[spf.UrlIdentifier.PARAM])` with the parameter defaulting to
`None`.  The function does not consult the request headers. -/
def is_spf_request (req : Request) : Bool := pyTruthy req.spfParam

/-- Model of `Servlet.IsSPFRequest` (src/src/demo/app.py):
`has_spf_header or has_spf_param`. -/
def IsSPFRequest (req : Request) : Bool :=
  pyTruthy req.spfHeader || pyTruthy req.spfParam

/-- Model of `Servlet.redirect` in fragment mode: the JSON encoding of the
single-key `redirect` object.  In non-fragment mode the code instead raises
`web.seeother(url)`, an imperative HTTP redirect outside the value model. -/
def redirect_spf (url : String) : String :=
  encode_json [("redirect", Json.str url)]

/-! ## `_ChunkedSample` of src/src/server/demo/app.py -/

/-- Strip leading and trailing whitespace, as `int`/`float` do. -/
def stripSpaces (s : List Char) : List Char :=
  ((s.dropWhile isWs).reverse.dropWhile isWs).reverse

/-- Python `int(s)` on a string: optional surrounding whitespace, optional
sign, one or more decimal digits; anything else raises `ValueError`
(`none`). -/
def pyIntParse (s : String) : Option Int :=
  match stripSpaces s.data with
  | [] => none
  | c :: cs =>
    let p : Bool × List Char :=
      if c = '-' then (true, cs) else if c = '+' then (false, cs) else (false, c :: cs)
    if p.2.isEmpty then none
    else if p.2.all Char.isDigit then
      some (if p.1 then -(digitsToNat p.2 : Int) else (digitsToNat p.2 : Int))
    else none

/-- Python `float(s)` on a string, modelled over the exact rationals for
decimal literals (optional sign, digits, optional point and fraction).  The
exponent form and the `inf`/`nan` words are left unmodelled; no claim
exercises them. -/
def pyFloatParse (s : String) : Option Rat :=
  match stripSpaces s.data with
  | [] => none
  | c :: cs =>
    let p : Bool × List Char :=
      if c = '-' then (true, cs) else if c = '+' then (false, cs) else (false, c :: cs)
    let ipr := takeDigits p.2
    match ipr.2 with
    | [] =>
      if ipr.1.isEmpty then none
      else some (if p.1 then -(digitsToNat ipr.1 : Rat) else (digitsToNat ipr.1 : Rat))
    | d :: rest2 =>
      if d = '.' then
        let fpr := takeDigits rest2
        if fpr.2.isEmpty && (!ipr.1.isEmpty || !fpr.1.isEmpty) then
          let q : Rat :=
            (digitsToNat ipr.1 : Rat) + (digitsToNat fpr.1 : Rat) / (10 : Rat) ^ fpr.1.length
          some (if p.1 then -q else q)
        else none
      else none

/-- Model of `_ChunkedSample._handle_input` restricted to the two numeric
knobs: raw optional request parameters in, `(num_chunks, delay_time)` out.
An absent chunk count defaults to the integer `1` (on which `int` succeeds);
an absent delay defaults to the empty string (on which `float` raises, and
the handler catches `ValueError` and substitutes `1`). -/
def handle_input (chunksRaw delayRaw : Option String) : Int × Rat :=
  (match chunksRaw with
   | none => 1
   | some s => (pyIntParse s).getD 1,
   match delayRaw with
   | none => 1
   | some s => (pyFloatParse s).getD 1)

/-- The slices `string[idx:idx+length]` for `idx in range(0, len(string),
length)` with a positive step, the step written as `l + 1`. -/
def chunksOf : List Char → Nat → List (List Char)
  | _, 0 => []
  | [], _ + 1 => []
  | c :: cs, l + 1 =>
      (c :: cs).take (l + 1) :: chunksOf ((c :: cs).drop (l + 1)) (l + 1)
termination_by s _ => s.length
decreasing_by simp [List.length_drop]; omega

/-- Python errors `_iter_chunks` can raise. -/
inductive PyErr where
  | zeroDivision : PyErr
  | valueError : PyErr
deriving DecidableEq

/-- Model of `_ChunkedSample._iter_chunks`.  `len(string)/float(number)`
raises ZeroDivisionError when `number` is 0.  The ceiling division is taken
exactly; the source's float detour can change the computed chunk length on
astronomically long strings but can never make it zero for a nonempty string
nor positive for an empty one, which is all the downstream behaviour depends
on.  `range(0, len(string), 0)` raises `ValueError` (zero step), which is
reached exactly when the string is empty. -/
def iter_chunks (s : List Char) (number : Nat) : Except PyErr (List (List Char)) :=
  if number = 0 then Except.error PyErr.zeroDivision
  else
    let length := (s.length + number - 1) / number
    if length = 0 then Except.error PyErr.valueError
    else Except.ok (chunksOf s length)

/-! ## Concrete values used to instantiate the theorems -/

/-- The example content value of spec section 8: a stylesheet, a title and a
default string conversion. -/
def exampleContent : Content :=
  ⟨some "a\x7bcolor:red\x7d", none, some "Hi", none, none, "<p>x</p>", fun _ => Json.null⟩

/-- The response object `create_spf_response` builds for `exampleContent`. -/
def exampleResp : List (String × Json) :=
  [("head", Json.str "a\x7bcolor:red\x7d"), ("title", Json.str "Hi"),
   ("body", Json.obj [("content", Json.str "<p>x</p>")])]

/-- The early part of the multipart split of `exampleResp`. -/
def exampleEarly : List (String × Json) :=
  [("head", Json.str "a\x7bcolor:red\x7d"), ("title", Json.str "Hi")]

/-- The late part of the multipart split of `exampleResp`. -/
def exampleLate : List (String × Json) :=
  [("body", Json.obj [("content", Json.str "<p>x</p>")])]

/-- A content value whose attributes string is the JSON number `5` (valid
JSON, truthy, not an object). -/
def contentNum5 : Content := ⟨none, none, none, none, some "5", "", fun _ => Json.null⟩

/-- A content value whose attributes string is present but empty, which is
not valid JSON. -/
def contentEmptyAttr : Content := ⟨none, none, none, none, some "", "", fun _ => Json.null⟩

/-! ## Theorems -/

theorem powerSum_nil : powerSum [] = 0 := rfl

theorem powerSum_cons (c : Char) (cs : List Char) :
    powerSum (c :: cs) = c.toNat * 31 ^ cs.length + powerSum cs := by
  unfold powerSum
  rw [List.length_cons, Finset.sum_range_succ']
  simp only [Nat.add_sub_cancel, Nat.sub_zero]
  rw [show (c :: cs).getD 0 (Char.ofNat 0) = c from rfl]
  rw [Nat.add_comm (c.toNat * 31 ^ cs.length)]
  congr 1
  apply Finset.sum_congr rfl
  intro i _
  have h1 : (c :: cs).getD (i + 1) (Char.ofNat 0) = cs.getD i (Char.ofNat 0) := rfl
  have h2 : cs.length - (i + 1) = cs.length - 1 - i := by omega
  rw [h1, h2]

theorem hashcode_foldl_eq (s : List Char) :
    ∀ a : Nat, a < 2 ^ 32 →
      s.foldl (fun result c => (31 * result + c.toNat) % 2 ^ 32) a =
        (a * 31 ^ s.length + powerSum s) % 2 ^ 32 := by
  induction s with
  | nil =>
      intro a ha
      simp [powerSum_nil]
      exact (Nat.mod_eq_of_lt ha).symm
  | cons c cs ih =>
      intro a _
      rw [List.foldl_cons, ih _ (Nat.mod_lt _ (by norm_num)), powerSum_cons]
      have hmod : (31 * a + c.toNat) % 2 ^ 32 ≡ 31 * a + c.toNat [MOD 2 ^ 32] :=
        Nat.mod_modEq _ _
      have h2 := (hmod.mul_right (31 ^ cs.length)).add_right (powerSum cs)
      calc ((31 * a + c.toNat) % 2 ^ 32 * 31 ^ cs.length + powerSum cs) % 2 ^ 32
          = ((31 * a + c.toNat) * 31 ^ cs.length + powerSum cs) % 2 ^ 32 := h2
        _ = (a * 31 ^ (c :: cs).length + (c.toNat * 31 ^ cs.length + powerSum cs)) % 2 ^ 32 := by
            congr 1
            rw [List.length_cons, pow_succ]
            ring

theorem hashcode_lt (s : List Char) : ∀ a : Nat, a < 2 ^ 32 →
    s.foldl (fun result c => (31 * result + c.toNat) % 2 ^ 32) a < 2 ^ 32 := by
  induction s with
  | nil => intro a ha; simpa using ha
  | cons c cs ih =>
      intro a _
      rw [List.foldl_cons]
      exact ih _ (Nat.mod_lt _ (by norm_num))

theorem string_data_append (s t : String) : (s ++ t).data = s.data ++ t.data := rfl

theorem skipWs_cons_not (c : Char) (l : List Char) (h : isWs c = false) :
    skipWs (c :: l) = c :: l := by
  simp [skipWs, h]

theorem parseStrChars_escape (s : List Char) :
    ∀ rest, parseStrChars (escape s ++ '"' :: rest) = some (s, rest) := by
  induction s with
  | nil =>
      intro rest
      simp [escape, parseStrChars]
  | cons c cs ih =>
      intro rest
      by_cases h1 : c = '"'
      · subst h1; simp [escape, escapeChar, parseStrChars, unescapeChar, ih]
      · by_cases h2 : c = '\\'
        · subst h2; simp [escape, escapeChar, parseStrChars, unescapeChar, ih]
        · by_cases h3 : c = '\n'
          · subst h3; simp [escape, escapeChar, parseStrChars, unescapeChar, ih]
          · by_cases h4 : c = '\r'
            · subst h4; simp [escape, escapeChar, parseStrChars, unescapeChar, ih]
            · by_cases h5 : c = '\t'
              · subst h5; simp [escape, escapeChar, parseStrChars, unescapeChar, ih]
              · by_cases h6 : c = Char.ofNat 8
                · subst h6; simp [escape, escapeChar, parseStrChars, unescapeChar, ih]
                · by_cases h7 : c = Char.ofNat 12
                  · subst h7; simp [escape, escapeChar, parseStrChars, unescapeChar, ih]
                  · simp [escape, escapeChar, parseStrChars, h1, h2, h3, h4, h5, h6, h7, ih]

theorem digitVal_digitChar (d : Nat) (h : d < 10) : digitVal (Nat.digitChar d) = d := by
  interval_cases d <;> rfl

theorem isDigit_digitChar (d : Nat) (h : d < 10) : (Nat.digitChar d).isDigit = true := by
  interval_cases d <;> rfl

theorem natDigits_all (n : Nat) : (natDigits n).all Char.isDigit = true := by
  unfold natDigits
  by_cases h : n = 0
  · simp [h]
  · simp only [h, if_false, List.all_eq_true]
    intro c hc
    rw [List.mem_map] at hc
    obtain ⟨d, hd, rfl⟩ := hc
    exact isDigit_digitChar d (Nat.digits_lt_base (by norm_num) (List.mem_reverse.1 hd))

theorem natDigits_ne_nil (n : Nat) : natDigits n ≠ [] := by
  unfold natDigits
  by_cases h : n = 0
  · simp [h]
  · simp [h, Nat.digits_ne_nil_iff_ne_zero]

theorem takeDigits_append (ds : List Char) (h : ds.all Char.isDigit = true) :
    ∀ rest, headNotDigit rest = true → takeDigits (ds ++ rest) = (ds, rest) := by
  induction ds with
  | nil =>
      intro rest hr
      cases rest with
      | nil => rfl
      | cons c t =>
          simp [headNotDigit] at hr
          simp [takeDigits, hr]
  | cons c cs ih =>
      intro rest hr
      rw [List.all_cons, Bool.and_eq_true] at h
      simp [takeDigits, h.1, ih h.2 rest hr]

theorem foldr_digits_eq_ofDigits (l : List Nat) (h : ∀ d ∈ l, d < 10) :
    l.foldr (fun d a => 10 * a + digitVal (Nat.digitChar d)) 0 = Nat.ofDigits 10 l := by
  induction l with
  | nil => simp [Nat.ofDigits_nil]
  | cons d l ih =>
      rw [List.foldr_cons, Nat.ofDigits_cons,
        digitVal_digitChar d (h d (List.mem_cons_self d l)),
        ih (fun x hx => h x (List.mem_cons_of_mem d hx))]
      omega

theorem digitsToNat_natDigits (n : Nat) : digitsToNat (natDigits n) = n := by
  by_cases h : n = 0
  · subst h; rfl
  · unfold natDigits digitsToNat
    simp only [h, if_false]
    rw [List.map_reverse, List.foldl_reverse, List.foldr_map]
    rw [foldr_digits_eq_ofDigits _ (fun d hd => Nat.digits_lt_base (by norm_num) hd)]
    exact Nat.ofDigits_digits 10 n

theorem takeDigits_natDigits (n : Nat) (rest : List Char) (hr : headNotDigit rest = true) :
    takeDigits (natDigits n ++ rest) = (natDigits n, rest) :=
  takeDigits_append _ (natDigits_all n) rest hr

theorem isDigit_not_ws (c : Char) (hd : c.isDigit = true) : isWs c = false := by
  by_contra hw
  rw [Bool.not_eq_false] at hw
  simp only [isWs, Bool.or_eq_true, decide_eq_true_eq] at hw
  rcases hw with ((rfl | rfl) | rfl) | rfl <;> simp at hd

theorem valStart_not_ws (c : Char) (h : valStart c = true) : isWs c = false := by
  simp only [valStart, Bool.or_eq_true, decide_eq_true_eq] at h
  rcases h with ((((((rfl | rfl) | rfl) | rfl) | rfl) | h) | rfl) | rfl
  · rfl
  · rfl
  · rfl
  · rfl
  · rfl
  · exact isDigit_not_ws c h
  · rfl
  · rfl

theorem valStart_ne_rbracket (c : Char) (h : valStart c = true) : ¬ c = ']' := by
  rintro rfl
  exact absurd h (by decide)

theorem valStart_ne_rbrace (c : Char) (h : valStart c = true) : ¬ c = rbrace := by
  rintro rfl
  exact absurd h (by decide)

theorem encV_head (v : Json) : ∃ c t, encV v = c :: t ∧ valStart c = true := by
  cases v with
  | null => exact ⟨'n', ['u', 'l', 'l'], by simp [encV], by decide⟩
  | bool b =>
      cases b with
      | true => exact ⟨'t', ['r', 'u', 'e'], by simp [encV], by decide⟩
      | false => exact ⟨'f', ['a', 'l', 's', 'e'], by simp [encV], by decide⟩
  | num n =>
      by_cases h : n < 0
      · exact ⟨'-', natDigits n.natAbs, by simp [encV, encNum, h], by decide⟩
      · obtain ⟨d, t, hd⟩ := List.exists_cons_of_ne_nil (natDigits_ne_nil n.natAbs)
        refine ⟨d, t, by simp [encV, encNum, h, hd], ?_⟩
        have hall := natDigits_all n.natAbs
        rw [hd, List.all_cons, Bool.and_eq_true] at hall
        simp [valStart, hall.1]
  | str s => exact ⟨'"', escape s.data ++ ['"'], by simp [encV], by decide⟩
  | arr xs =>
      cases xs with
      | nil => exact ⟨'[', [']'], by simp [encV], by decide⟩
      | cons x xs => exact ⟨'[', encItems x xs ++ [']'], by simp [encV], by decide⟩
  | obj ms =>
      cases ms with
      | nil => exact ⟨lbrace, [rbrace], by simp [encV], by decide⟩
      | cons m ms => exact ⟨lbrace, encMembers m ms ++ [rbrace], by simp [encV], by decide⟩

theorem encV_length_pos (v : Json) : 1 ≤ (encV v).length := by
  obtain ⟨c, t, h, _⟩ := encV_head v
  simp [h]

theorem encItems_head (x : Json) (xs : List Json) :
    ∃ c t, encItems x xs = c :: t ∧ valStart c = true := by
  obtain ⟨c, t, h, hs⟩ := encV_head x
  cases xs with
  | nil => exact ⟨c, t, by simp [encItems, h], hs⟩
  | cons y ys => exact ⟨c, t ++ ',' :: encItems y ys, by simp [encItems, h], hs⟩

theorem parseVal_null (f : Nat) (rest : List Char) :
    parseVal (f + 1) (['n', 'u', 'l', 'l'] ++ rest) = some (Json.null, rest) := rfl

theorem parseVal_true (f : Nat) (rest : List Char) :
    parseVal (f + 1) (['t', 'r', 'u', 'e'] ++ rest) = some (Json.bool true, rest) := rfl

theorem parseVal_false (f : Nat) (rest : List Char) :
    parseVal (f + 1) (['f', 'a', 'l', 's', 'e'] ++ rest) = some (Json.bool false, rest) := rfl

theorem parseVal_str (f : Nat) (s : String) (rest : List Char) :
    parseVal (f + 1) ('"' :: (escape s.data ++ '"' :: rest)) = some (Json.str s, rest) := by
  simp [parseVal, skipWs, isWs, parseStrChars_escape]

theorem parseVal_num (f : Nat) (n : Int) (rest : List Char) (hrest : headNotDigit rest = true) :
    parseVal (f + 1) (encNum n ++ rest) = some (Json.num n, rest) := by
  by_cases hn : n < 0
  · rw [encNum, if_pos hn]
    obtain ⟨d, t, hd⟩ := List.exists_cons_of_ne_nil (natDigits_ne_nil n.natAbs)
    simp only [List.cons_append, parseVal]
    rw [skipWs_cons_not _ _ (by decide)]
    simp only [show ('-' = 'n') = False by simp, show ('-' = 't') = False by simp,
      show ('-' = 'f') = False by simp, show ('-' = '"') = False by simp, if_false, if_true,
      eq_self_iff_true]
    rw [takeDigits_natDigits _ rest hrest, hd]
    simp only [← hd, digitsToNat_natDigits]
    have hs : -((n.natAbs : Nat) : Int) = n := by omega
    rw [hs]
  · rw [encNum, if_neg hn]
    obtain ⟨d, t, hd⟩ := List.exists_cons_of_ne_nil (natDigits_ne_nil n.natAbs)
    have hall := natDigits_all n.natAbs
    rw [hd, List.all_cons, Bool.and_eq_true] at hall
    have hdig : d.isDigit = true := hall.1
    rw [hd]
    simp only [List.cons_append, parseVal]
    rw [skipWs_cons_not _ _ (isDigit_not_ws d hdig)]
    have h1 : (d = 'n') = False := by simp; rintro rfl; simp at hdig
    have h2 : (d = 't') = False := by simp; rintro rfl; simp at hdig
    have h3 : (d = 'f') = False := by simp; rintro rfl; simp at hdig
    have h4 : (d = '"') = False := by simp; rintro rfl; simp at hdig
    have h5 : (d = '-') = False := by simp; rintro rfl; simp at hdig
    simp only [h1, h2, h3, h4, h5, if_false, hdig, if_true]
    rw [← List.cons_append, ← hd, takeDigits_natDigits _ rest hrest]
    simp only [digitsToNat_natDigits]
    have hs : ((n.natAbs : Nat) : Int) = n := by omega
    rw [hs]

theorem encMembers_head (m : String × Json) (ms : List (String × Json)) :
    ∃ t, encMembers m ms = '"' :: t := by
  obtain ⟨k, v⟩ := m
  cases ms with
  | nil => exact ⟨escape k.data ++ '"' :: ':' :: encV v, by simp [encMembers]⟩
  | cons m2 ms2 =>
      exact ⟨(escape k.data ++ '"' :: ':' :: encV v) ++ ',' :: encMembers m2 ms2,
        by simp [encMembers]⟩

theorem parse_enc_aux (fuel : Nat) :
    (∀ v rest, (encV v).length < fuel → headNotDigit rest = true →
      parseVal fuel (encV v ++ rest) = some (v, rest)) ∧
    (∀ x xs rest, (encItems x xs).length + 1 < fuel →
      parseItems fuel (encItems x xs ++ ']' :: rest) = some (x :: xs, rest)) ∧
    (∀ m ms rest, (encMembers m ms).length + 1 < fuel →
      parseMembers fuel (encMembers m ms ++ rbrace :: rest) = some (m :: ms, rest)) := by
  induction fuel with
  | zero =>
      exact ⟨fun v rest h _ => absurd h (Nat.not_lt_zero _),
             fun x xs rest h => absurd h (Nat.not_lt_zero _),
             fun m ms rest h => absurd h (Nat.not_lt_zero _)⟩
  | succ f ih =>
      obtain ⟨iha, ihb, ihc⟩ := ih
      refine ⟨?_, ?_, ?_⟩
      · intro v rest hlen hrest
        cases v with
        | null =>
            rw [show encV Json.null = ['n', 'u', 'l', 'l'] by simp [encV]]
            exact parseVal_null f rest
        | bool b =>
            cases b with
            | true =>
                rw [show encV (Json.bool true) = ['t', 'r', 'u', 'e'] by simp [encV]]
                exact parseVal_true f rest
            | false =>
                rw [show encV (Json.bool false) = ['f', 'a', 'l', 's', 'e'] by simp [encV]]
                exact parseVal_false f rest
        | num n =>
            rw [show encV (Json.num n) = encNum n by simp [encV]]
            exact parseVal_num f n rest hrest
        | str s =>
            rw [show encV (Json.str s) = '"' :: (escape s.data ++ ['"']) by simp [encV]]
            simp only [List.cons_append, List.append_assoc, List.singleton_append]
            exact parseVal_str f s rest
        | arr xs =>
            cases xs with
            | nil =>
                rw [show encV (Json.arr []) = ['[', ']'] by simp [encV]]
                rfl
            | cons x xs =>
                obtain ⟨c0, t0, hit, hc0⟩ := encItems_head x xs
                have hlen2 : (encItems x xs).length + 1 < f := by
                  have h2 : (encV (Json.arr (x :: xs))).length = (encItems x xs).length + 2 := by
                    simp [encV]
                  omega
                rw [show encV (Json.arr (x :: xs)) = '[' :: (encItems x xs ++ [']'])
                  by simp [encV]]
                rw [List.cons_append, List.append_assoc, List.singleton_append]
                simp only [parseVal]
                rw [skipWs_cons_not _ _ (by decide)]
                simp only [show ('[' = 'n') = False by simp, show ('[' = 't') = False by simp,
                  show ('[' = 'f') = False by simp, show ('[' = '"') = False by simp,
                  show ('[' = '-') = False by simp, show '['.isDigit = false by rfl,
                  if_false, eq_self_iff_true, if_true, Bool.false_eq_true]
                rw [hit, List.cons_append]
                rw [skipWs_cons_not _ _ (valStart_not_ws c0 hc0)]
                dsimp only
                rw [if_neg (valStart_ne_rbracket c0 hc0)]
                rw [← List.cons_append, ← hit, ihb x xs rest hlen2]
                rfl
        | obj ms =>
            cases ms with
            | nil =>
                rw [show encV (Json.obj []) = [lbrace, rbrace] by simp [encV]]
                rfl
            | cons m ms =>
                obtain ⟨t0, hmt⟩ := encMembers_head m ms
                have hlen2 : (encMembers m ms).length + 1 < f := by
                  have h2 : (encV (Json.obj (m :: ms))).length = (encMembers m ms).length + 2 := by
                    simp [encV]
                  omega
                rw [show encV (Json.obj (m :: ms)) = lbrace :: (encMembers m ms ++ [rbrace])
                  by simp [encV]]
                rw [List.cons_append, List.append_assoc, List.singleton_append]
                simp only [parseVal]
                rw [skipWs_cons_not _ _ (by decide)]
                simp only [eq_false (show ¬lbrace = 'n' by decide),
                  eq_false (show ¬lbrace = 't' by decide),
                  eq_false (show ¬lbrace = 'f' by decide),
                  eq_false (show ¬lbrace = '"' by decide),
                  eq_false (show ¬lbrace = '-' by decide),
                  eq_false (show ¬lbrace = '[' by decide),
                  show lbrace.isDigit = false by rfl,
                  if_false, eq_self_iff_true, if_true, Bool.false_eq_true]
                rw [hmt, List.cons_append]
                rw [skipWs_cons_not _ _ (by decide)]
                dsimp only
                rw [if_neg (show ¬ '"' = rbrace by decide)]
                rw [← List.cons_append, ← hmt, ihc m ms rest hlen2]
                rfl
      · intro x xs rest hlen
        cases xs with
        | nil =>
            have hx : (encV x).length < f := by
              have h2 : (encItems x []).length = (encV x).length := by simp [encItems]
              omega
            rw [show encItems x [] = encV x by simp [encItems]]
            simp only [parseItems]
            rw [iha x (']' :: rest) hx rfl]
            dsimp only
            rw [skipWs_cons_not _ _ (by decide)]
            dsimp only
            rw [if_neg (show ¬ ']' = ',' by decide), if_pos rfl]
        | cons y ys =>
            have hlx : (encItems x (y :: ys)).length =
                (encV x).length + 1 + (encItems y ys).length := by
              simp [encItems]
              omega
            have hx : (encV x).length < f := by omega
            have hys : (encItems y ys).length + 1 < f := by
              have := encV_length_pos x
              omega
            rw [show encItems x (y :: ys) = encV x ++ ',' :: encItems y ys by simp [encItems]]
            rw [List.append_assoc, List.cons_append]
            simp only [parseItems]
            rw [iha x (',' :: (encItems y ys ++ ']' :: rest)) hx rfl]
            dsimp only
            rw [skipWs_cons_not _ _ (by decide)]
            dsimp only
            rw [if_pos rfl]
            rw [ihb y ys rest hys]
            rfl
      · intro m ms rest hlen
        obtain ⟨k, v⟩ := m
        cases ms with
        | nil =>
            have hv : (encV v).length < f := by
              have h2 : (encMembers (k, v) []).length =
                  (escape k.data).length + 3 + (encV v).length := by
                simp [encMembers]
                omega
              omega
            rw [show encMembers (k, v) [] = '"' :: (escape k.data ++ '"' :: ':' :: encV v)
              by simp [encMembers]]
            simp only [List.cons_append, List.append_assoc]
            simp only [parseMembers]
            rw [skipWs_cons_not _ _ (by decide)]
            dsimp only
            rw [if_pos rfl]
            rw [parseStrChars_escape k.data]
            dsimp only
            rw [skipWs_cons_not _ _ (by decide)]
            dsimp only
            rw [if_pos rfl]
            rw [iha v (rbrace :: rest) hv rfl]
            dsimp only
            rw [skipWs_cons_not _ _ (by decide)]
            dsimp only
            rw [if_neg (show ¬rbrace = ',' by decide), if_pos rfl]
        | cons m2 ms2 =>
            have hv : (encV v).length < f := by
              have h2 : (encMembers (k, v) (m2 :: ms2)).length =
                  (escape k.data).length + 4 + (encV v).length + (encMembers m2 ms2).length := by
                simp [encMembers]
                omega
              omega
            have hm2 : (encMembers m2 ms2).length + 1 < f := by
              have h2 : (encMembers (k, v) (m2 :: ms2)).length =
                  (escape k.data).length + 4 + (encV v).length + (encMembers m2 ms2).length := by
                simp [encMembers]
                omega
              have := encV_length_pos v
              omega
            rw [show encMembers (k, v) (m2 :: ms2) =
                ('"' :: (escape k.data ++ '"' :: ':' :: encV v)) ++ ',' :: encMembers m2 ms2
              by simp [encMembers]]
            simp only [List.cons_append, List.append_assoc]
            simp only [parseMembers]
            rw [skipWs_cons_not _ _ (by decide)]
            dsimp only
            rw [if_pos rfl]
            rw [parseStrChars_escape k.data]
            dsimp only
            rw [skipWs_cons_not _ _ (by decide)]
            dsimp only
            rw [if_pos rfl]
            rw [iha v (',' :: (encMembers m2 ms2 ++ rbrace :: rest)) hv rfl]
            dsimp only
            rw [skipWs_cons_not _ _ (by decide)]
            dsimp only
            rw [if_pos rfl]
            rw [ihc m2 ms2 rest hm2]
            rfl

theorem parseVal_encV (fuel : Nat) (v : Json) (rest : List Char)
    (h1 : (encV v).length < fuel) (h2 : headNotDigit rest = true) :
    parseVal fuel (encV v ++ rest) = some (v, rest) :=
  (parse_enc_aux fuel).1 v rest h1 h2

theorem json_loads_encV (v : Json) : json_loads (String.mk (encV v)) = some v := by
  unfold json_loads
  have h := parseVal_encV ((encV v).length + 1) v [] (by omega) rfl
  rw [List.append_nil] at h
  dsimp only
  rw [h]
  rfl

theorem json_loads_encode_json (resp : List (String × Json)) :
    json_loads (encode_json resp) = some (Json.obj resp) :=
  json_loads_encV (Json.obj resp)

theorem skipWs_cons_ws (c : Char) (l : List Char) (h : isWs c = true) :
    skipWs (c :: l) = skipWs l := by
  simp [skipWs, h]

theorem parseVal_nil (fuel : Nat) : parseVal fuel [] = none := by
  cases fuel with
  | zero => rfl
  | succ f => rfl

theorem parseVal_ws_cons (c : Char) (h : isWs c = true) (fuel : Nat) (l : List Char) :
    parseVal fuel (c :: l) = parseVal fuel l := by
  cases fuel with
  | zero => rfl
  | succ f => simp only [parseVal, skipWs_cons_ws c l h]

theorem parse_two_part_chars (e l : List (String × Json)) (fuel : Nat)
    (hf : (encV (Json.obj e)).length + (encV (Json.obj l)).length + 8 < fuel) :
    parseVal fuel ('[' :: '\r' :: '\n' :: (encV (Json.obj e) ++
      ',' :: '\r' :: '\n' :: (encV (Json.obj l) ++ ']' :: '\r' :: '\n' :: []))) =
    some (Json.arr [Json.obj e, Json.obj l], ['\r', '\n']) := by
  obtain ⟨f, rfl⟩ := Nat.exists_eq_succ_of_ne_zero (show fuel ≠ 0 by omega)
  obtain ⟨c0, t0, he, hc0⟩ := encV_head (Json.obj e)
  simp only [parseVal]
  rw [skipWs_cons_not _ _ (by decide)]
  simp only [show ('[' = 'n') = False by simp, show ('[' = 't') = False by simp,
    show ('[' = 'f') = False by simp, show ('[' = '"') = False by simp,
    show ('[' = '-') = False by simp, show '['.isDigit = false by rfl,
    if_false, eq_self_iff_true, if_true, Bool.false_eq_true]
  rw [skipWs_cons_ws _ _ (by decide), skipWs_cons_ws _ _ (by decide)]
  rw [he, List.cons_append, skipWs_cons_not _ _ (valStart_not_ws c0 hc0)]
  dsimp only
  rw [if_neg (valStart_ne_rbracket c0 hc0)]
  rw [← List.cons_append, ← he]
  obtain ⟨f2, rfl⟩ := Nat.exists_eq_succ_of_ne_zero (show f ≠ 0 by omega)
  simp only [parseItems]
  rw [parseVal_encV f2 (Json.obj e)
    (',' :: '\r' :: '\n' :: (encV (Json.obj l) ++ ']' :: '\r' :: '\n' :: []))
    (by omega) rfl]
  dsimp only
  rw [skipWs_cons_not _ _ (by decide)]
  dsimp only
  rw [if_pos rfl]
  obtain ⟨f3, rfl⟩ := Nat.exists_eq_succ_of_ne_zero (show f2 ≠ 0 by omega)
  simp only [parseItems]
  rw [parseVal_ws_cons _ (by decide), parseVal_ws_cons _ (by decide)]
  rw [parseVal_encV f3 (Json.obj l) (']' :: '\r' :: '\n' :: []) (by omega) rfl]
  dsimp only
  rw [skipWs_cons_not _ _ (by decide)]
  dsimp only
  rw [if_neg (show ¬ ']' = ',' by decide), if_pos rfl]
  rfl

theorem parse_truncated_chars (e : List (String × Json)) (fuel : Nat)
    (hf : (encV (Json.obj e)).length + 6 < fuel) :
    parseVal fuel
      ('[' :: '\r' :: '\n' :: (encV (Json.obj e) ++ ',' :: '\r' :: '\n' :: [])) = none := by
  obtain ⟨f, rfl⟩ := Nat.exists_eq_succ_of_ne_zero (show fuel ≠ 0 by omega)
  obtain ⟨c0, t0, he, hc0⟩ := encV_head (Json.obj e)
  simp only [parseVal]
  rw [skipWs_cons_not _ _ (by decide)]
  simp only [show ('[' = 'n') = False by simp, show ('[' = 't') = False by simp,
    show ('[' = 'f') = False by simp, show ('[' = '"') = False by simp,
    show ('[' = '-') = False by simp, show '['.isDigit = false by rfl,
    if_false, eq_self_iff_true, if_true, Bool.false_eq_true]
  rw [skipWs_cons_ws _ _ (by decide), skipWs_cons_ws _ _ (by decide)]
  rw [he, List.cons_append, skipWs_cons_not _ _ (valStart_not_ws c0 hc0)]
  dsimp only
  rw [if_neg (valStart_ne_rbracket c0 hc0)]
  rw [← List.cons_append, ← he]
  obtain ⟨f2, rfl⟩ := Nat.exists_eq_succ_of_ne_zero (show f ≠ 0 by omega)
  simp only [parseItems]
  rw [parseVal_encV f2 (Json.obj e) (',' :: '\r' :: '\n' :: []) (by omega) rfl]
  dsimp only
  rw [skipWs_cons_not _ _ (by decide)]
  dsimp only
  rw [if_pos rfl]
  obtain ⟨f3, rfl⟩ := Nat.exists_eq_succ_of_ne_zero (show f2 ≠ 0 by omega)
  simp only [parseItems]
  rw [parseVal_ws_cons _ (by decide), parseVal_ws_cons _ (by decide), parseVal_nil]
  rfl

theorem join_five_data (a b c d e : String) :
    (String.join [a, b, c, d, e]).data = a.data ++ b.data ++ c.data ++ d.data ++ e.data := by
  simp [String.join, List.foldl, string_data_append]

theorem json_loads_stream (e l : List (String × Json)) :
    json_loads (String.join [multipartBegin, encode_json e, multipartDelimiter,
      encode_json l, multipartEnd]) = some (Json.arr [Json.obj e, Json.obj l]) := by
  unfold json_loads
  rw [join_five_data]
  rw [show multipartBegin.data = ['[', '\r', '\n'] from rfl,
    show multipartDelimiter.data = [',', '\r', '\n'] from rfl,
    show multipartEnd.data = [']', '\r', '\n'] from rfl,
    show (encode_json e).data = encV (Json.obj e) from rfl,
    show (encode_json l).data = encV (Json.obj l) from rfl]
  simp only [List.cons_append, List.append_assoc, List.nil_append, List.append_nil]
  rw [parse_two_part_chars e l _ (by simp [List.length_append]; omega)]
  rfl


theorem dictGet_append (k : String) (l1 l2 : List (String × Json)) :
    dictGet k (l1 ++ l2) = (dictGet k l1).or (dictGet k l2) := by
  induction l1 with
  | nil => simp [dictGet]
  | cons p l1 ih =>
      obtain ⟨k2, v⟩ := p
      by_cases h : k2 = k
      · simp [dictGet, h]
      · simp [dictGet, h, ih]

theorem dictGet_head_respSegs (c : Content) (fr : Option (List (String × String)))
    (attr : Json) :
    dictGet "head" (respSegs c fr attr) =
      if c.stylesheet.getD "" = "" then none
      else some (Json.str (c.stylesheet.getD "")) := by
  unfold respSegs
  split_ifs <;> simp_all [dictGet_append, dictGet]

theorem dictGet_foot_respSegs (c : Content) (fr : Option (List (String × String)))
    (attr : Json) :
    dictGet "foot" (respSegs c fr attr) =
      if c.javascript.getD "" = "" then none
      else some (Json.str (c.javascript.getD "")) := by
  unfold respSegs
  split_ifs <;> simp_all [dictGet_append, dictGet]

theorem dictGet_title_respSegs (c : Content) (fr : Option (List (String × String)))
    (attr : Json) :
    dictGet "title" (respSegs c fr attr) =
      if c.title.getD "" = "" then none
      else some (Json.str (c.title.getD "")) := by
  unfold respSegs
  split_ifs <;> simp_all [dictGet_append, dictGet]

theorem dictGet_name_respSegs (c : Content) (fr : Option (List (String × String)))
    (attr : Json) :
    dictGet "name" (respSegs c fr attr) =
      if c.name.getD "" = "" then none
      else some (Json.str (c.name.getD "")) := by
  unfold respSegs
  split_ifs <;> simp_all [dictGet_append, dictGet]

theorem dictGet_attr_respSegs (c : Content) (fr : Option (List (String × String)))
    (attr : Json) :
    dictGet "attr" (respSegs c fr attr) =
      if jsonTruthy attr then some attr else none := by
  unfold respSegs
  split_ifs <;> simp_all [dictGet_append, dictGet]

theorem dictGet_body_respSegs (c : Content) (fr : Option (List (String × String)))
    (attr : Json) :
    dictGet "body" (respSegs c fr attr) =
      if fragsTruthy fr then some (Json.obj (fragBody c (fr.getD [])))
      else if c.contentStr = "" then none
      else some (Json.obj [("content", Json.str c.contentStr)]) := by
  unfold respSegs
  split_ifs <;> simp_all [dictGet_append, dictGet]

theorem dictGet_redirect_respSegs (c : Content) (fr : Option (List (String × String)))
    (attr : Json) :
    dictGet "redirect" (respSegs c fr attr) = none := by
  unfold respSegs
  split_ifs <;> simp_all [dictGet_append, dictGet]

theorem eraseKey_of_none (k : String) (l : List (String × Json))
    (h : dictGet k l = none) : eraseKey k l = l := by
  induction l with
  | nil => rfl
  | cons p l ih =>
      obtain ⟨k2, v⟩ := p
      by_cases h2 : k2 = k
      · simp [dictGet, h2] at h
      · simp only [dictGet, h2, if_false] at h
        simp [eraseKey, h2, ih h]

theorem dictGet_eraseKey_ne (k k2 : String) (hne : k2 ≠ k) (l : List (String × Json)) :
    dictGet k (eraseKey k2 l) = dictGet k l := by
  induction l with
  | nil => rfl
  | cons p l ih =>
      obtain ⟨k3, v⟩ := p
      by_cases h3 : k3 = k2
      · subst h3
        simp [eraseKey, dictGet, hne]
      · by_cases h4 : k3 = k
        · simp [eraseKey, dictGet, h3, h4, Ne.symm hne]
        · simp [eraseKey, dictGet, h3, h4, ih]

theorem split_early_spec (resp : List (String × Json)) :
    (split_early resp).1 =
      (match dictGet "head" resp with
       | some v => [("head", v)]
       | none => []) ++
      (match dictGet "title" resp with
       | some v => [("title", v)]
       | none => []) ++
      (match dictGet "name" resp with
       | some v => [("name", v)]
       | none => []) ∧
    (split_early resp).2 = eraseKey "title" (eraseKey "head" resp) := by
  have et2 : dictGet "title" (eraseKey "head" resp) = dictGet "title" resp :=
    dictGet_eraseKey_ne _ _ (by decide) _
  have en2 : dictGet "name" (eraseKey "title" (eraseKey "head" resp)) =
      dictGet "name" resp := by
    rw [dictGet_eraseKey_ne _ _ (by decide), dictGet_eraseKey_ne _ _ (by decide)]
  have en3 : dictGet "name" (eraseKey "title" resp) = dictGet "name" resp :=
    dictGet_eraseKey_ne _ _ (by decide) _
  unfold split_early
  rcases hh : dictGet "head" resp with _ | vh
  · have eh : eraseKey "head" resp = resp := eraseKey_of_none _ _ hh
    rcases ht : dictGet "title" resp with _ | vt
    · have et : eraseKey "title" resp = resp := eraseKey_of_none _ _ ht
      rcases hn : dictGet "name" resp with _ | vn <;>
        simp [hh, ht, hn, eh, et]
    · rcases hn : dictGet "name" resp with _ | vn <;>
        simp [hh, ht, hn, eh, en3]
  · rcases ht : dictGet "title" resp with _ | vt
    · have et : eraseKey "title" (eraseKey "head" resp) = eraseKey "head" resp :=
        eraseKey_of_none _ _ (et2.trans ht)
      rcases hn : dictGet "name" resp with _ | vn <;>
        simp [hh, ht, hn, et2, et, en2, dictGet_eraseKey_ne _ _ (show "head" ≠ "name" by decide)]
    · rcases hn : dictGet "name" resp with _ | vn <;>
        simp [hh, ht, hn, et2, en2]

theorem dictInsert_ne_nil (k : String) (v : Json) (d : List (String × Json)) :
    dictInsert k v d ≠ [] := by
  cases d with
  | nil => simp [dictInsert]
  | cons p rest =>
      obtain ⟨k2, v2⟩ := p
      by_cases h : k2 = k <;> simp [dictInsert, h]

theorem fragBody_ne_nil (c : Content) (l : List (String × String)) (h : l ≠ []) :
    fragBody c l ≠ [] := by
  obtain ⟨p, rest, rfl⟩ := List.exists_cons_of_ne_nil h
  unfold fragBody
  rw [List.foldl_cons]
  have haux : ∀ (t : List (String × String)) (acc : List (String × Json)), acc ≠ [] →
      t.foldl (fun b q => dictInsert q.1 (c.attrs q.2) b) acc ≠ [] := by
    intro t
    induction t with
    | nil => intro acc hacc; simpa using hacc
    | cons q t ih =>
        intro acc _
        rw [List.foldl_cons]
        exact ih _ (dictInsert_ne_nil _ _ _)
  exact haux rest _ (dictInsert_ne_nil _ _ _)

theorem dictInsert_of_none (k : String) (v : Json) (acc : List (String × Json))
    (h : dictGet k acc = none) : dictInsert k v acc = acc ++ [(k, v)] := by
  induction acc with
  | nil => rfl
  | cons p rest ih =>
      obtain ⟨k2, v2⟩ := p
      by_cases h2 : k2 = k
      · simp [dictGet, h2] at h
      · simp only [dictGet, h2, if_false] at h
        simp [dictInsert, h2, ih h]

theorem fragBody_eq_map (c : Content) (l : List (String × String))
    (h : (l.map Prod.fst).Nodup) :
    fragBody c l = l.map fun p => (p.1, c.attrs p.2) := by
  have haux : ∀ (t : List (String × String)) (acc : List (String × Json)),
      (∀ p ∈ t, dictGet p.1 acc = none) → (t.map Prod.fst).Nodup →
      t.foldl (fun b q => dictInsert q.1 (c.attrs q.2) b) acc =
        acc ++ t.map (fun p => (p.1, c.attrs p.2)) := by
    intro t
    induction t with
    | nil => intro acc _ _; simp
    | cons p t ih =>
        intro acc h1 h2
        obtain ⟨k, a⟩ := p
        rw [List.foldl_cons, dictInsert_of_none _ _ _ (h1 (k, a) (List.mem_cons_self _ _))]
        dsimp only
        rw [List.map_cons] at h2
        have h2n := List.nodup_cons.1 h2
        rw [ih (acc ++ [(k, c.attrs a)]) ?_ h2n.2]
        · simp
        · intro q hq
          rw [dictGet_append, h1 q (List.mem_cons_of_mem _ hq)]
          have hkq : k ≠ q.1 := by
            intro hk
            have hmem : q.1 ∈ List.map Prod.fst t := List.mem_map_of_mem Prod.fst hq
            rw [← hk] at hmem
            exact h2n.1 hmem
          simp [dictGet, hkq]
  have := haux l [] (by intro p _; rfl) h
  simpa [fragBody] using this

theorem chunksOf_join_aux :
    ∀ (n : Nat) (s : List Char) (l : Nat), s.length ≤ n → (chunksOf s (l + 1)).flatten = s := by
  intro n
  induction n with
  | zero =>
      intro s l h
      have hnil : s = [] := List.eq_nil_of_length_eq_zero (by omega)
      subst hnil
      simp [chunksOf]
  | succ n ih =>
      intro s l h
      cases s with
      | nil => simp [chunksOf]
      | cons c cs =>
          rw [show chunksOf (c :: cs) (l + 1) =
              (c :: cs).take (l + 1) :: chunksOf ((c :: cs).drop (l + 1)) (l + 1)
            by simp [chunksOf]]
          rw [List.flatten_cons]
          rw [ih ((c :: cs).drop (l + 1)) l (by
            simp only [List.length_drop, List.length_cons]
            simp only [List.length_cons] at h
            omega)]
          exact List.take_append_drop _ _

theorem chunksOf_join (s : List Char) (l : Nat) : (chunksOf s (l + 1)).flatten = s :=
  chunksOf_join_aux s.length s l le_rfl

theorem iter_chunks_ok (s : List Char) (n : Nat) (h1 : 1 ≤ n) (h2 : s ≠ []) :
    ∃ cs, iter_chunks s n = Except.ok cs ∧ cs.flatten = s := by
  unfold iter_chunks
  rw [if_neg (by omega)]
  have hlpos : 1 ≤ (s.length + n - 1) / n := by
    rw [Nat.one_le_div_iff (by omega)]
    have := List.length_pos.2 h2
    omega
  obtain ⟨l, hl⟩ : ∃ l, (s.length + n - 1) / n = l + 1 := ⟨(s.length + n - 1) / n - 1, by omega⟩
  rw [hl, if_neg (by omega)]
  exact ⟨_, rfl, chunksOf_join s l⟩

theorem iter_chunks_zero (s : List Char) :
    iter_chunks s 0 = Except.error PyErr.zeroDivision := rfl

theorem iter_chunks_nil (n : Nat) (h : 1 ≤ n) :
    iter_chunks [] n = Except.error PyErr.valueError := by
  unfold iter_chunks
  rw [if_neg (by omega)]
  have hz : (List.length ([] : List Char) + n - 1) / n = 0 :=
    Nat.div_eq_of_lt (by simp; omega)
  rw [hz]
  rfl


/-- Claim C1: for every string `s`, `hashcode(s)` equals the Horner power
sum `sum of code_point(s[i]) * 31^(n-1-i)` reduced mod `2^32` (the modulus
being applied after each character in the fold itself); `hashcode(None)` and
`hashcode(\"\")` both return 0; and for every input, including strings with
code points above 255, the result lies in `[0, 2^32)`. -/
theorem hashcode_spec :
    (∀ s : List Char, hashcode (some s) = powerSum s % 2 ^ 32) ∧
    hashcode none = 0 ∧ hashcode (some []) = 0 ∧
    ∀ o : Option (List Char), hashcode o < 2 ^ 32 := by
  refine ⟨?_, rfl, rfl, ?_⟩
  · intro s
    have h := hashcode_foldl_eq s 0 (by norm_num)
    rw [show hashcode (some s) =
        List.foldl (fun result c => (31 * result + c.toNat) % 2 ^ 32) 0 s from rfl, h]
    simp
  · intro o
    cases o with
    | none => norm_num [hashcode]
    | some s => exact hashcode_lt s 0 (by norm_num)

/-- Claim C2, counterexample: the claim says `is_fragment_request` returns
true whenever the `X-SPF-Request` header is present and truthy, but
`Servlet.is_spf_request` of src/src/server/demo/app.py consults only the
`spf` parameter: on a request with a truthy header and no parameter it
returns false. -/
theorem is_fragment_request_cex :
    ¬ (∀ req : Request, pyTruthy req.spfHeader = true → is_spf_request req = true) := by
  intro hclaim
  have h := hclaim ⟨some "1", none⟩ (by decide)
  simp [is_spf_request, pyTruthy] at h

/-- Claim C2, amended: `Servlet.IsSPFRequest` (src/src/demo/app.py) returns
true iff the `X-SPF-Request` header or the `spf` parameter is present and
truthy (true if both, false if neither), while `Servlet.is_spf_request`
(src/src/server/demo/app.py) returns true iff the `spf` parameter alone is
present and truthy, ignoring the header. -/
theorem is_fragment_request_amended (h p : Option String) :
    (IsSPFRequest ⟨h, p⟩ = true ↔ (pyTruthy h = true ∨ pyTruthy p = true)) ∧
    (is_spf_request ⟨h, p⟩ = true ↔ pyTruthy p = true) := by
  constructor
  · simp [IsSPFRequest]
  · simp [is_spf_request]

theorem join_three_data (a b c : String) :
    (String.join [a, b, c]).data = a.data ++ b.data ++ c.data := by
  simp [String.join, List.foldl, string_data_append]

theorem json_loads_truncated (e : List (String × Json)) :
    json_loads (String.join [multipartBegin, encode_json e, multipartDelimiter]) = none := by
  unfold json_loads
  rw [join_three_data]
  rw [show multipartBegin.data = ['[', '\r', '\n'] from rfl,
    show multipartDelimiter.data = [',', '\r', '\n'] from rfl,
    show (encode_json e).data = encV (Json.obj e) from rfl]
  simp only [List.cons_append, List.append_assoc, List.nil_append, List.append_nil]
  rw [parse_truncated_chars e _ (by simp [List.length_append])]

theorem encode_json_data_head (ms : List (String × Json)) :
    ∃ t, (encode_json ms).data = lbrace :: t := by
  cases ms with
  | nil => exact ⟨[rbrace], by simp [encode_json, encV]⟩
  | cons m rest =>
      exact ⟨encMembers m rest ++ [rbrace], by simp [encode_json, encV]⟩

theorem encode_json_ne_tokens (ms : List (String × Json)) :
    encode_json ms ≠ multipartDelimiter ∧ encode_json ms ≠ multipartEnd ∧
    encode_json ms ≠ multipartBegin := by
  obtain ⟨t, ht⟩ := encode_json_data_head ms
  refine ⟨?_, ?_, ?_⟩ <;> intro h
  · have hd := congrArg String.data h
    rw [ht, show multipartDelimiter.data = [',', '\r', '\n'] from rfl] at hd
    exact absurd (List.cons.inj hd).1 (by decide)
  · have hd := congrArg String.data h
    rw [ht, show multipartEnd.data = [']', '\r', '\n'] from rfl] at hd
    exact absurd (List.cons.inj hd).1 (by decide)
  · have hd := congrArg String.data h
    rw [ht, show multipartBegin.data = ['[', '\r', '\n'] from rfl] at hd
    exact absurd (List.cons.inj hd).1 (by decide)

/-- Claim C3: for every content value with `truncate=false`, concatenating
in order all chunks yielded by `chunked_render_spf` and parsing the result
as JSON yields a two-element array whose first element has at most the keys
`head`, `title` and `name`, whose second element is exactly the built
response minus the popped `head` and `title`, and in which `name`, when
present in the built response, appears with the identical value in both
elements. -/
theorem chunked_stream_spec (c : Content) (fr : Option (List (String × String)))
    (resp early late : List (String × Json))
    (hok : create_spf_response c fr = Except.ok resp)
    (hsplit : split_early resp = (early, late)) :
    chunked_render_spf c fr false =
      Except.ok [multipartBegin, encode_json early, multipartDelimiter,
        encode_json late, multipartEnd] ∧
    json_loads (String.join [multipartBegin, encode_json early, multipartDelimiter,
      encode_json late, multipartEnd]) = some (Json.arr [Json.obj early, Json.obj late]) ∧
    (∀ p ∈ early, p.1 = "head" ∨ p.1 = "title" ∨ p.1 = "name") ∧
    late = eraseKey "title" (eraseKey "head" resp) ∧
    (∀ v, dictGet "name" resp = some v →
      dictGet "name" early = some v ∧ dictGet "name" late = some v) := by
  have hspec := split_early_spec resp
  rw [hsplit] at hspec
  obtain ⟨hspec1, hspec2⟩ := hspec
  dsimp only at hspec1 hspec2
  refine ⟨?_, json_loads_stream early late, ?_, hspec2, ?_⟩
  · unfold chunked_render_spf
    rw [hok]
    dsimp only
    rw [hsplit]
    simp
  · intro p hp
    rw [hspec1] at hp
    simp only [List.mem_append] at hp
    rcases hp with (hp | hp) | hp
    · rcases hh : dictGet "head" resp with _ | v <;> rw [hh] at hp <;> simp at hp
      simp [hp]
    · rcases hh : dictGet "title" resp with _ | v <;> rw [hh] at hp <;> simp at hp
      simp [hp]
    · rcases hh : dictGet "name" resp with _ | v <;> rw [hh] at hp <;> simp at hp
      simp [hp]
  · intro v hv
    constructor
    · rw [hspec1, dictGet_append, dictGet_append]
      rcases hh : dictGet "head" resp with _ | vh <;>
        rcases ht : dictGet "title" resp with _ | vt <;>
        simp [hv, dictGet]
    · rw [hspec2, dictGet_eraseKey_ne _ _ (by decide), dictGet_eraseKey_ne _ _ (by decide), hv]

/-- Claim C4: for every content value with `truncate=true`, the chunk
sequence ends immediately after the `DELIMITER` that follows the early
object — exactly one `DELIMITER` is emitted, no late object and no `END`
token appear — and the concatenation of all chunks is not valid JSON. -/
theorem chunked_truncate_spec (c : Content) (fr : Option (List (String × String)))
    (resp : List (String × Json)) (hok : create_spf_response c fr = Except.ok resp) :
    chunked_render_spf c fr true =
      Except.ok [multipartBegin, encode_json (split_early resp).1, multipartDelimiter] ∧
    List.count multipartDelimiter
      [multipartBegin, encode_json (split_early resp).1, multipartDelimiter] = 1 ∧
    multipartEnd ∉ [multipartBegin, encode_json (split_early resp).1, multipartDelimiter] ∧
    json_loads (String.join [multipartBegin, encode_json (split_early resp).1,
      multipartDelimiter]) = none := by
  obtain ⟨hne1, hne2, _⟩ := encode_json_ne_tokens (split_early resp).1
  refine ⟨?_, ?_, ?_, json_loads_truncated (split_early resp).1⟩
  · unfold chunked_render_spf
    rw [hok]
    dsimp only
    simp
  · simp [List.count_cons, Ne.symm hne1, show multipartDelimiter ≠ multipartBegin by decide]
  · simp [List.mem_cons, Ne.symm hne2,
      show multipartEnd ≠ multipartBegin by decide,
      show multipartEnd ≠ multipartDelimiter by decide]

theorem respSegs_truthy (c : Content) (fr : Option (List (String × String))) (attr : Json)
    (p : String × Json) (hp : p ∈ respSegs c fr attr) : jsonTruthy p.2 = true := by
  unfold respSegs at hp
  simp only [List.mem_append] at hp
  rcases hp with ((((hp | hp) | hp) | hp) | hp) | hp
  · by_cases hc : c.stylesheet.getD "" = ""
    · rw [if_pos hc] at hp; simp at hp
    · rw [if_neg hc] at hp
      simp at hp
      simp [hp, jsonTruthy, hc]
  · by_cases hc : c.javascript.getD "" = ""
    · rw [if_pos hc] at hp; simp at hp
    · rw [if_neg hc] at hp
      simp at hp
      simp [hp, jsonTruthy, hc]
  · by_cases hc : c.title.getD "" = ""
    · rw [if_pos hc] at hp; simp at hp
    · rw [if_neg hc] at hp
      simp at hp
      simp [hp, jsonTruthy, hc]
  · by_cases hc : c.name.getD "" = ""
    · rw [if_pos hc] at hp; simp at hp
    · rw [if_neg hc] at hp
      simp at hp
      simp [hp, jsonTruthy, hc]
  · by_cases ha : jsonTruthy attr = true
    · rw [if_pos ha] at hp
      simp at hp
      rw [hp]
      exact ha
    · rw [if_neg ha] at hp; simp at hp
  · by_cases hf : fragsTruthy fr = true
    · rw [if_pos hf] at hp
      simp at hp
      obtain ⟨l, rfl, hl⟩ : ∃ l, fr = some l ∧ l ≠ [] := by
        cases fr with
        | none => simp [fragsTruthy] at hf
        | some l =>
            refine ⟨l, rfl, ?_⟩
            simp [fragsTruthy] at hf
            simpa [List.isEmpty_iff] using hf
      rw [hp]
      simp [jsonTruthy, List.isEmpty_iff]
      exact fragBody_ne_nil c l hl
    · rw [if_neg hf] at hp
      by_cases hcs : c.contentStr = ""
      · rw [if_pos hcs] at hp; simp at hp
      · rw [if_neg hcs] at hp
        simp at hp
        simp [hp, jsonTruthy]

theorem create_ok_resp (c : Content) (fr : Option (List (String × String)))
    (attr : Json) (resp : List (String × Json))
    (hattr : json_loads (c.attributes.getD "\x7b\x7d") = some attr)
    (hok : create_spf_response c fr = Except.ok resp) : resp = respSegs c fr attr := by
  unfold create_spf_response at hok
  rw [hattr] at hok
  exact (Except.ok.inj hok).symm

/-- Claim C5: the response object `create_spf_response` returns never
contains a key whose corresponding source field was empty or absent — every
stored value is truthy (no empty strings, no null placeholders), and each of
`head`, `foot`, `title`, `name`, `attr` and `body` is present exactly when
its source is non-empty/truthy. -/
theorem build_response_no_empty (c : Content) (fr : Option (List (String × String)))
    (attr : Json) (resp : List (String × Json))
    (hattr : json_loads (c.attributes.getD "\x7b\x7d") = some attr)
    (hok : create_spf_response c fr = Except.ok resp) :
    (∀ p ∈ resp, jsonTruthy p.2 = true) ∧
    ((dictGet "head" resp ≠ none) ↔ c.stylesheet.getD "" ≠ "") ∧
    ((dictGet "foot" resp ≠ none) ↔ c.javascript.getD "" ≠ "") ∧
    ((dictGet "title" resp ≠ none) ↔ c.title.getD "" ≠ "") ∧
    ((dictGet "name" resp ≠ none) ↔ c.name.getD "" ≠ "") ∧
    ((dictGet "attr" resp ≠ none) ↔ jsonTruthy attr = true) ∧
    ((dictGet "body" resp ≠ none) ↔ (fragsTruthy fr = true ∨ c.contentStr ≠ "")) := by
  have hresp := create_ok_resp c fr attr resp hattr hok
  subst hresp
  refine ⟨fun p hp => respSegs_truthy c fr attr p hp, ?_, ?_, ?_, ?_, ?_, ?_⟩
  · rw [dictGet_head_respSegs]
    by_cases hc : c.stylesheet.getD "" = "" <;> simp [hc]
  · rw [dictGet_foot_respSegs]
    by_cases hc : c.javascript.getD "" = "" <;> simp [hc]
  · rw [dictGet_title_respSegs]
    by_cases hc : c.title.getD "" = "" <;> simp [hc]
  · rw [dictGet_name_respSegs]
    by_cases hc : c.name.getD "" = "" <;> simp [hc]
  · rw [dictGet_attr_respSegs]
    by_cases ha : jsonTruthy attr = true <;> simp [ha]
  · rw [dictGet_body_respSegs]
    by_cases hf : fragsTruthy fr = true
    · simp [hf]
    · by_cases hcs : c.contentStr = "" <;> simp [hf, hcs]

/-- Claim C6: when `fragments` is supplied (and non-empty), `body` maps
every fragment id to the named attribute read off the content; when it is
not supplied and the full string conversion is non-empty, `body` is the
single-entry map from `\"content\"` to that string; when the string
conversion is empty, `body` is omitted entirely. -/
theorem build_response_body (c : Content) (fr : Option (List (String × String)))
    (attr : Json) (resp : List (String × Json))
    (hattr : json_loads (c.attributes.getD "\x7b\x7d") = some attr)
    (hok : create_spf_response c fr = Except.ok resp) :
    (∀ l, fr = some l → l ≠ [] → (l.map Prod.fst).Nodup →
      dictGet "body" resp = some (Json.obj (l.map fun p => (p.1, c.attrs p.2)))) ∧
    (fragsTruthy fr = false → c.contentStr ≠ "" →
      dictGet "body" resp = some (Json.obj [("content", Json.str c.contentStr)])) ∧
    (fragsTruthy fr = false → c.contentStr = "" → dictGet "body" resp = none) := by
  have hresp := create_ok_resp c fr attr resp hattr hok
  subst hresp
  rw [dictGet_body_respSegs]
  refine ⟨?_, ?_, ?_⟩
  · rintro l rfl hl hnd
    have hf : fragsTruthy (some l) = true := by
      simp [fragsTruthy, List.isEmpty_iff, hl]
    rw [if_pos hf]
    simp [fragBody_eq_map c l hnd]
  · intro hf hcs
    rw [if_neg (by simp [hf]), if_neg hcs]
  · intro hf hcs
    rw [if_neg (by simp [hf]), if_pos hcs]

/-- Claim C7, counterexample: the claim says the `attr` key is present
exactly when the attributes string parses to a non-empty JSON object, but a
content value whose attributes string is `\"5\"` (a truthy number, not an
object) still gets an `attr` key: Python's `if attr:` tests truthiness, not
objecthood. -/
theorem attr_key_cex :
    ¬ (∀ (c : Content) (fr : Option (List (String × String))) (resp : List (String × Json)),
        create_spf_response c fr = Except.ok resp →
        dictGet "attr" resp ≠ none →
        ∃ ms, ms ≠ [] ∧
          json_loads (c.attributes.getD "\x7b\x7d") = some (Json.obj ms)) := by
  intro hclaim
  obtain ⟨ms, hne, hms⟩ :=
    hclaim contentNum5 none [("attr", Json.num 5)] (by rfl) (by simp [dictGet])
  rw [show contentNum5.attributes.getD "\x7b\x7d" = "5" from rfl] at hms
  rw [show json_loads "5" = some (Json.num 5) from by rfl] at hms
  exact Json.noConfusion (Option.some.inj hms)

/-- Claim C7, amended: `create_spf_response` raises (propagates the
`json.loads` error, returning no partial result) whenever the attributes
string is present and not valid JSON — including the empty string — and
otherwise includes `attr` exactly when the parsed value is Python-truthy
(non-empty object, non-empty array, non-empty string, nonzero number, or
true), storing the parsed value itself. -/
theorem attr_key_amended (c : Content) (fr : Option (List (String × String))) :
    (json_loads (c.attributes.getD "\x7b\x7d") = none →
      create_spf_response c fr = Except.error "ValueError: attributes are not valid JSON") ∧
    (∀ attr resp, json_loads (c.attributes.getD "\x7b\x7d") = some attr →
      create_spf_response c fr = Except.ok resp →
      dictGet "attr" resp = if jsonTruthy attr then some attr else none) := by
  constructor
  · intro hnone
    unfold create_spf_response
    rw [hnone]
  · intro attr resp hattr hok
    have hresp := create_ok_resp c fr attr resp hattr hok
    subst hresp
    exact dictGet_attr_respSegs c fr attr

/-- Claim C8: every response object the server produces is either a
redirect object — `Servlet.redirect` in fragment mode returns exactly the
JSON encoding of the single-key object `(redirect, url)`, whose decoding
has no other key — or a content object built by `create_spf_response`,
which never contains the `redirect` key; no produced object mixes the
two. -/
theorem response_shape (c : Content) (fr : Option (List (String × String)))
    (resp : List (String × Json)) (url : String)
    (hok : create_spf_response c fr = Except.ok resp) :
    dictGet "redirect" resp = none ∧
    json_loads (redirect_spf url) = some (Json.obj [("redirect", Json.str url)]) := by
  constructor
  · rcases hattr : json_loads (c.attributes.getD "\x7b\x7d") with _ | attr
    · unfold create_spf_response at hok
      rw [hattr] at hok
      exact Except.noConfusion hok
    · have hresp := create_ok_resp c fr attr resp hattr hok
      subst hresp
      exact dictGet_redirect_respSegs c fr attr
  · exact json_loads_encode_json [("redirect", Json.str url)]

/-- Claim C9: `_handle_input` substitutes the default of 1 chunk when the
chunk-count parameter is absent or non-numeric and the default of 1 time
unit when the delay parameter is absent or non-numeric, without failing the
request, and passes numeric inputs through as given. -/
theorem handle_input_spec (craw draw : Option String) :
    (craw = none → (handle_input craw draw).1 = 1) ∧
    (∀ s, craw = some s → pyIntParse s = none → (handle_input craw draw).1 = 1) ∧
    (∀ s n, craw = some s → pyIntParse s = some n → (handle_input craw draw).1 = n) ∧
    (draw = none → (handle_input craw draw).2 = 1) ∧
    (∀ s, draw = some s → pyFloatParse s = none → (handle_input craw draw).2 = 1) ∧
    (∀ s q, draw = some s → pyFloatParse s = some q → (handle_input craw draw).2 = q) := by
  refine ⟨?_, ?_, ?_, ?_, ?_, ?_⟩
  · rintro rfl; rfl
  · rintro s rfl hs; simp [handle_input, hs]
  · rintro s n rfl hs; simp [handle_input, hs]
  · rintro rfl; rfl
  · rintro s rfl hs; simp [handle_input, hs]
  · rintro s q rfl hs; simp [handle_input, hs]

/-- Claim C10, counterexample: the claim says `_iter_chunks(s, n)` yields
chunks concatenating to `s` for every string and every `n >= 1`, but on the
empty string the computed chunk length is `ceil(0/n) = 0` and
`range(0, 0, 0)` raises `ValueError: step must not be zero`, so the
generator raises instead of terminating normally. -/
theorem iter_chunks_cex :
    ¬ (∀ (s : List Char) (n : Nat), 1 ≤ n →
        ∃ cs, iter_chunks s n = Except.ok cs ∧ cs.flatten = s) := by
  intro hclaim
  obtain ⟨cs, hcs, _⟩ := hclaim [] 1 (by decide)
  rw [show iter_chunks [] 1 = Except.error PyErr.valueError from rfl] at hcs
  exact Except.noConfusion hcs

/-- Claim C10, amended: for every non-empty string `s` and every
`n >= 1`, concatenating in order all chunks of `_iter_chunks(s, n)` equals
`s` exactly; for the empty string and `n >= 1` the generator raises
`ValueError` (zero `range` step) on its first step; and for `n = 0` it
raises a division-by-zero error on its first step. -/
theorem iter_chunks_amended (s : List Char) (n : Nat) :
    (1 ≤ n → s ≠ [] → ∃ cs, iter_chunks s n = Except.ok cs ∧ cs.flatten = s) ∧
    (1 ≤ n → s = [] → iter_chunks s n = Except.error PyErr.valueError) ∧
    (n = 0 → iter_chunks s n = Except.error PyErr.zeroDivision) := by
  refine ⟨fun h1 h2 => iter_chunks_ok s n h1 h2, ?_, ?_⟩
  · rintro h1 rfl
    exact iter_chunks_nil n h1
  · rintro rfl
    exact iter_chunks_zero s

/-- Witness for claim C3 at the spec section 8 example content. -/
theorem chunked_stream_spec_witness :
    chunked_render_spf exampleContent none false =
      Except.ok [multipartBegin, encode_json exampleEarly, multipartDelimiter,
        encode_json exampleLate, multipartEnd] ∧
    json_loads (String.join [multipartBegin, encode_json exampleEarly, multipartDelimiter,
      encode_json exampleLate, multipartEnd]) =
      some (Json.arr [Json.obj exampleEarly, Json.obj exampleLate]) ∧
    (∀ p ∈ exampleEarly, p.1 = "head" ∨ p.1 = "title" ∨ p.1 = "name") ∧
    exampleLate = eraseKey "title" (eraseKey "head" exampleResp) ∧
    (∀ v, dictGet "name" exampleResp = some v →
      dictGet "name" exampleEarly = some v ∧ dictGet "name" exampleLate = some v) :=
  chunked_stream_spec exampleContent none exampleResp exampleEarly exampleLate
    (by rfl) (by rfl)

/-- Witness for claim C4 at the spec section 8 example content. -/
theorem chunked_truncate_spec_witness :
    chunked_render_spf exampleContent none true =
      Except.ok [multipartBegin, encode_json (split_early exampleResp).1,
        multipartDelimiter] ∧
    List.count multipartDelimiter
      [multipartBegin, encode_json (split_early exampleResp).1, multipartDelimiter] = 1 ∧
    multipartEnd ∉
      [multipartBegin, encode_json (split_early exampleResp).1, multipartDelimiter] ∧
    json_loads (String.join [multipartBegin, encode_json (split_early exampleResp).1,
      multipartDelimiter]) = none :=
  chunked_truncate_spec exampleContent none exampleResp (by rfl)

/-- Witness for claim C5 at the spec section 8 example content. -/
theorem build_response_no_empty_witness :
    (∀ p ∈ exampleResp, jsonTruthy p.2 = true) ∧
    ((dictGet "head" exampleResp ≠ none) ↔ exampleContent.stylesheet.getD "" ≠ "") ∧
    ((dictGet "foot" exampleResp ≠ none) ↔ exampleContent.javascript.getD "" ≠ "") ∧
    ((dictGet "title" exampleResp ≠ none) ↔ exampleContent.title.getD "" ≠ "") ∧
    ((dictGet "name" exampleResp ≠ none) ↔ exampleContent.name.getD "" ≠ "") ∧
    ((dictGet "attr" exampleResp ≠ none) ↔ jsonTruthy (Json.obj []) = true) ∧
    ((dictGet "body" exampleResp ≠ none) ↔
      (fragsTruthy none = true ∨ exampleContent.contentStr ≠ "")) :=
  build_response_no_empty exampleContent none (Json.obj []) exampleResp (by rfl) (by rfl)

/-- Witness for claim C6 at the spec section 8 example content. -/
theorem build_response_body_witness :
    (∀ l, (none : Option (List (String × String))) = some l → l ≠ [] →
      (l.map Prod.fst).Nodup →
      dictGet "body" exampleResp =
        some (Json.obj (l.map fun p => (p.1, exampleContent.attrs p.2)))) ∧
    (fragsTruthy none = false → exampleContent.contentStr ≠ "" →
      dictGet "body" exampleResp =
        some (Json.obj [("content", Json.str exampleContent.contentStr)])) ∧
    (fragsTruthy none = false → exampleContent.contentStr = "" →
      dictGet "body" exampleResp = none) :=
  build_response_body exampleContent none (Json.obj []) exampleResp (by rfl) (by rfl)

/-- Witness for claim C7's amended statement, exercising both the raising
branch (empty attributes string) and the truthy-number branch. -/
theorem attr_key_amended_witness :
    create_spf_response contentEmptyAttr none =
      Except.error "ValueError: attributes are not valid JSON" ∧
    dictGet "attr" [("attr", Json.num 5)] =
      (if jsonTruthy (Json.num 5) then some (Json.num 5) else none) :=
  ⟨(attr_key_amended contentEmptyAttr none).1 (by rfl),
   (attr_key_amended contentNum5 none).2 (Json.num 5) [("attr", Json.num 5)]
     (by rfl) (by rfl)⟩

/-- Witness for claim C8 at the spec section 8 example content. -/
theorem response_shape_witness :
    dictGet "redirect" exampleResp = none ∧
    json_loads (redirect_spf "/other") =
      some (Json.obj [("redirect", Json.str "/other")]) :=
  response_shape exampleContent none exampleResp "/other" (by rfl)

/-- Witness for claim C9: a non-numeric chunk count and delay fall back to
the defaults, numeric values pass through. -/
theorem handle_input_spec_witness :
    (handle_input (some "abc") (some "x")).1 = 1 ∧
    (handle_input (some "4") (some "2")).1 = 4 ∧
    (handle_input (some "abc") (some "x")).2 = 1 ∧
    (handle_input (some "4") (some "2")).2 = ((2 : Nat) : Rat) :=
  ⟨(handle_input_spec (some "abc") (some "x")).2.1 "abc" rfl (by rfl),
   (handle_input_spec (some "4") (some "2")).2.2.1 "4" 4 rfl (by rfl),
   (handle_input_spec (some "abc") (some "x")).2.2.2.2.1 "x" rfl (by rfl),
   (handle_input_spec (some "4") (some "2")).2.2.2.2.2 "2" ((2 : Nat) : Rat) rfl (by rfl)⟩

/-- Witness for claim C10's amended statement on concrete strings and chunk
counts. -/
theorem iter_chunks_amended_witness :
    (∃ cs, iter_chunks ['a', 'b', 'c'] 2 = Except.ok cs ∧ cs.flatten = ['a', 'b', 'c']) ∧
    iter_chunks [] 3 = Except.error PyErr.valueError ∧
    iter_chunks ['a'] 0 = Except.error PyErr.zeroDivision :=
  ⟨(iter_chunks_amended ['a', 'b', 'c'] 2).1 (by decide) (by decide),
   (iter_chunks_amended [] 3).2.1 (by decide) rfl,
   (iter_chunks_amended ['a'] 0).2.2 rfl⟩
